import Mathlib

/-!
Verification of the fractal-term core: a shallow embedding of
`src/fract/fractalcalc.rs` and the crossfade logic of `src/fract/app.rs`.

Conventions of the embedding:
* `f64` values are embedded as exact rationals (`ℚ`).  The source's
  magnitude tests `sqrt (re*re + im*im) < 2.0` and `... > 2.0` are embedded
  as the equivalent decidable tests `re*re + im*im < 4` and `> 4`
  (for a nonnegative radicand, `sqrt r < 2 ↔ r < 4` and `sqrt r > 2 ↔ r > 4`).
* `u16` / `usize` counters are embedded as `ℕ`; the iteration counter is
  bounded by `max_val < 2^16`, so no wrap-around ever occurs in the source.
* A rotation angle is represented by the pair of its cosine and sine
  (the only way the angle is consumed), so the development stays in exact
  rational arithmetic; quantifying over all such pairs covers every angle.
* The helper crate `leelib` (Vector2f, Matrix, Animator) is not part of the
  sources under verification; its operations are modelled from the spec,
  as marked on each definition.
-/

namespace FractalTerm

/-- Modelled from the spec: leelib's `Vector2f`, "a 2D floating-point vector
with addition, scalar multiplication, and rotation by angle". -/
@[ext]
structure Vector2f where
  x : ℚ
  y : ℚ
deriving DecidableEq

instance : Add Vector2f where
  add a b := ⟨a.x + b.x, a.y + b.y⟩

instance : HMul Vector2f ℚ Vector2f where
  hMul v k := ⟨v.x * k, v.y * k⟩

@[simp] theorem Vector2f.add_x (a b : Vector2f) : (a + b).x = a.x + b.x := rfl

@[simp] theorem Vector2f.add_y (a b : Vector2f) : (a + b).y = a.y + b.y := rfl

@[simp] theorem Vector2f.smul_x (v : Vector2f) (k : ℚ) : (v * k).x = v.x * k := rfl

@[simp] theorem Vector2f.smul_y (v : Vector2f) (k : ℚ) : (v * k).y = v.y * k := rfl

/-- Modelled from the spec: a rotation angle, represented by the pair
(cos θ, sin θ) of the angle it stands for. -/
structure Rotation where
  c : ℚ
  s : ℚ
deriving DecidableEq

/-- Modelled from the spec: leelib's `Vector2f::rotate`, rotation of a vector
by an angle (given through its cosine/sine pair). -/
def Vector2f.rotate (v : Vector2f) (r : Rotation) : Vector2f :=
  ⟨v.x * r.c - v.y * r.s, v.x * r.s + v.y * r.c⟩

/-- The `num` crate's `Complex64`, embedded with exact rational parts. -/
structure Complex64 where
  re : ℚ
  im : ℚ
deriving DecidableEq

instance : Add Complex64 where
  add a b := ⟨a.re + b.re, a.im + b.im⟩

instance : Mul Complex64 where
  mul a b := ⟨a.re * b.re - a.im * b.im, a.re * b.im + a.im * b.re⟩

/-- `Complex::norm_sqr`: `re*re + im*im`. -/
def Complex64.norm_sqr (z : Complex64) : ℚ :=
  z.re * z.re + z.im * z.im

/-- `FractalType` from `fractalcalc.rs`: Mandelbrot, or Julia with its seed. -/
inductive FractalType where
  | mandelbrot : FractalType
  | julia : Complex64 → FractalType
deriving DecidableEq

/-- `FractalSpecs` from `fractalcalc.rs`: the value object passed to the
`FractalCalc` methods. -/
structure FractalSpecs where
  fractal_type : FractalType
  max_val : ℕ
  default_width : ℚ
  default_center : Vector2f
  element_ar : ℚ
  num_threads : ℕ
  use_multi_threads : Bool
deriving DecidableEq

/-- `DEFAULT_MANDELBROT_WIDTH` from `fractalcalc.rs`. -/
def DEFAULT_MANDELBROT_WIDTH : ℚ := 4

/-- `DEFAULT_JULIA_WIDTH` from `fractalcalc.rs`. -/
def DEFAULT_JULIA_WIDTH : ℚ := 4

/-- `FractalSpecs::new_mandelbrot_with_defaults` from `fractalcalc.rs`. -/
def FractalSpecs.new_mandelbrot_with_defaults (element_ar : ℚ) : FractalSpecs where
  fractal_type := FractalType.mandelbrot
  max_val := 500
  default_width := DEFAULT_MANDELBROT_WIDTH
  default_center := ⟨0, 0⟩
  element_ar := element_ar
  num_threads := 1
  use_multi_threads := false

/-- `FractalSpecs::new_julia` from `fractalcalc.rs`. -/
def FractalSpecs.new_julia (c : Complex64) (element_ar : ℚ) : FractalSpecs where
  fractal_type := FractalType.julia c
  max_val := 500
  default_width := DEFAULT_JULIA_WIDTH
  default_center := ⟨0, 0⟩
  element_ar := element_ar
  num_threads := 1
  use_multi_threads := false

/-- `FractalCalc::get_height` from `fractalcalc.rs`:
`matrix_aspect_ratio = matrix_width / full_matrix_height` and the result is
`width * (1 / matrix_aspect_ratio) * (1 / element_ar)`. -/
def FractalCalc.get_height (specs : FractalSpecs) (matrix_width full_matrix_height : ℕ)
    (width : ℚ) : ℚ :=
  let matrix_aspect_ratio : ℚ := (matrix_width : ℚ) / (full_matrix_height : ℚ)
  width * (1 / matrix_aspect_ratio) * (1 / specs.element_ar)

/-- The loop of `FractalCalc::get_mandelbrot_value`:
`while z.norm_sqr().sqrt() < 2.0 && val < max_val { z = z * z + c; val += 1 }`.
The fuel argument is the remaining budget `max_val - val`, so the loop guard
`val < max_val` is exactly "fuel not yet exhausted"; the returned value is the
number of iterations performed, which equals the source's final `val`. -/
def FractalCalc.mandelLoop (c : Complex64) : Complex64 → ℕ → ℕ
  | _, 0 => 0
  | z, fuel + 1 =>
    if z.norm_sqr < 4 then FractalCalc.mandelLoop c (z * z + c) fuel + 1 else 0

/-- `FractalCalc::get_mandelbrot_value` from `fractalcalc.rs`:
`c = x + y*i`, `z = 0`, then the escape loop. -/
def FractalCalc.get_mandelbrot_value (x y : ℚ) (max_val : ℕ) : ℕ :=
  FractalCalc.mandelLoop ⟨x, y⟩ ⟨0, 0⟩ max_val

/-- The loop of `FractalCalc::get_julia_value`:
`for val in 0..max_val { if z_abs > 2.0 { return val }; z = z * z + c }`
followed by `max_val`.  The fuel argument is the number of loop iterations
still allowed (`max_val - val`); the returned value is the source's result
minus the iterations already counted, so the top-level call returns the
source's result. -/
def FractalCalc.juliaLoop (c : Complex64) : Complex64 → ℕ → ℕ
  | _, 0 => 0
  | z, fuel + 1 =>
    if 4 < z.norm_sqr then 0 else FractalCalc.juliaLoop c (z * z + c) fuel + 1

/-- `FractalCalc::get_julia_value` from `fractalcalc.rs`:
`z = x + y*i`, then the escape loop with seed `c`. -/
def FractalCalc.get_julia_value (c : Complex64) (x y : ℚ) (max_val : ℕ) : ℕ :=
  FractalCalc.juliaLoop c ⟨x, y⟩ max_val

/-- `FractalCalc::get_value` from `fractalcalc.rs`: dispatch on the fractal
type. -/
def FractalCalc.get_value (specs : FractalSpecs) (x y : ℚ) : ℕ :=
  match specs.fractal_type with
  | FractalType.mandelbrot => FractalCalc.get_mandelbrot_value x y specs.max_val
  | FractalType.julia c => FractalCalc.get_julia_value c x y specs.max_val

/-- Modelled from the spec: leelib's `Matrix` (the spec's Grid), "a generic 2D
buffer of numeric cell values" owning "a dense `width * height` buffer of `T`
with row-major addressing"; the cell at column `x`, row `y` lives at flat
index `y * width + x`. -/
structure Matrix (α : Type) where
  width : ℕ
  height : ℕ
  data : List α
deriving DecidableEq

/-- Modelled from the spec: `Grid` construction at fixed `width`/`height`. -/
def Matrix.new (α : Type) (w h : ℕ) (init : α) : Matrix α :=
  ⟨w, h, List.replicate (w * h) init⟩

/-- Modelled from the spec: writing one cell of the row-major buffer
(`Matrix::set(x, y, value)` in the source). -/
def Matrix.set (m : Matrix α) (x y : ℕ) (v : α) : Matrix α :=
  { m with data := m.data.set (y * m.width + x) v }

/-- Modelled from the spec: reading one cell of the row-major buffer. -/
def Matrix.get (m : Matrix α) (x y : ℕ) : Option α :=
  m.data[y * m.width + x]?

/-- Dense-buffer well-formedness: the buffer has exactly `width * height`
cells (the spec's "owns a dense `width * height` buffer"). -/
def Matrix.wf (m : Matrix α) : Prop :=
  m.data.length = m.width * m.height

instance (m : Matrix α) : Decidable m.wf := by
  unfold Matrix.wf; infer_instance

/-- The inner loop of `FractalCalc::write_matrix_section` over one row:
`for index_x in 0..section.width()` write `get_value(specs, cursor.x, cursor.y)`
at `(index_x, index_y)`, then advance the cursor by `slope_x`.  The arguments
are the current column `index_x`, the number of columns still to write, the
cursor, and the matrix written so far. -/
def FractalCalc.write_row (specs : FractalSpecs) (slope_x : Vector2f) (index_y : ℕ) :
    ℕ → ℕ → Vector2f → Matrix ℕ → Matrix ℕ
  | _, 0, _, m => m
  | index_x, n + 1, cursor, m =>
    FractalCalc.write_row specs slope_x index_y (index_x + 1) n (cursor + slope_x)
      (m.set index_x index_y (FractalCalc.get_value specs cursor.x cursor.y))

/-- The outer loop of `FractalCalc::write_matrix_section` over the rows:
`for index_y in 0..section.height()`, set the cursor to
`center + slope_x * (-half_matrix_w) + slope_y * ((full_matrix_offset + index_y) - half_matrix_h)`
and write the row.  The arguments are the current row `index_y`, the number of
rows still to write, and the matrix written so far. -/
def FractalCalc.write_rows (specs : FractalSpecs) (center slope_x slope_y : Vector2f)
    (half_matrix_w half_matrix_h : ℚ) (full_matrix_offset : ℕ) :
    ℕ → ℕ → Matrix ℕ → Matrix ℕ
  | _, 0, m => m
  | index_y, n + 1, m =>
    FractalCalc.write_rows specs center slope_x slope_y half_matrix_w half_matrix_h
      full_matrix_offset (index_y + 1) n
      (FractalCalc.write_row specs slope_x index_y 0 m.width
        (center + slope_x * (-half_matrix_w)
          + slope_y * (((full_matrix_offset + index_y : ℕ) : ℚ) - half_matrix_h)) m)

/-- `FractalCalc::write_matrix_section` from `fractalcalc.rs`.  The source's
`section` argument is renamed `sect` (`section` is a Lean keyword). -/
def FractalCalc.write_matrix_section (specs : FractalSpecs) (center : Vector2f)
    (width : ℚ) (rotation : Rotation) (sect : Matrix ℕ)
    (full_matrix_offset full_matrix_height : ℕ) : Matrix ℕ :=
  let mandelbrot_height := FractalCalc.get_height specs sect.width full_matrix_height width
  let element_w := width / (sect.width : ℚ)
  let element_h := mandelbrot_height / (full_matrix_height : ℚ)
  let slope_x := Vector2f.rotate ⟨element_w, 0⟩ rotation
  let slope_y := Vector2f.rotate ⟨0, element_h⟩ rotation
  let half_matrix_w := (sect.width : ℚ) / 2
  let half_matrix_h := (full_matrix_height : ℚ) / 2
  FractalCalc.write_rows specs center slope_x slope_y half_matrix_w half_matrix_h
    full_matrix_offset 0 sect.height sect

/-- `FractalCalc::write_matrix` from `fractalcalc.rs`: a single section
covering the whole matrix. -/
def FractalCalc.write_matrix (specs : FractalSpecs) (center : Vector2f) (width : ℚ)
    (rotation : Rotation) (matrix : Matrix ℕ) : Matrix ℕ :=
  FractalCalc.write_matrix_section specs center width rotation matrix 0 matrix.height

/-- The sampling-lattice point of cell `(index_x, index_y)` of the full grid,
as the spec describes it: cell (0,0) at
`center - slope_x*(grid_width/2) - slope_y*(grid_height/2)`, successive cells
of a row one `slope_x` apart, and each row start recomputed from `center` with
the `slope_y` offset multiplied by the row index. -/
def latticePoint (center slope_x slope_y : Vector2f) (grid_w grid_h : ℕ)
    (index_x index_y : ℕ) : Vector2f :=
  center + slope_x * (-((grid_w : ℚ) / 2)) + slope_y * (-((grid_h : ℚ) / 2))
    + slope_x * (index_x : ℚ) + slope_y * (index_y : ℚ)

/-- Modelled from the spec: leelib's `Anim` (the spec's MotionMode) for a
scalar (`f64`) Animator.  The vector-only `VelocityWithRotation` case cannot
inhabit a scalar Animator ("scalar modes only apply to float;
`VelocityWithRotation` requires Vector2") and is omitted from the scalar
variant. -/
inductive Anim where
  | none : Anim
  | velocity (velocity friction : ℚ) (epsilon : Option ℚ) : Anim
  | scaleVelocity (scale_velocity friction : ℚ) (epsilon : Option ℚ) : Anim
  | target (target coefficient : ℚ) (epsilon : Option ℚ) : Anim
deriving DecidableEq

/-- Modelled from the spec: leelib's `Animator<f64>`, "{ value: T, mode:
MotionMode<T> }". -/
structure Animator where
  value : ℚ
  anim : Anim
deriving DecidableEq

/-- Modelled from the spec: `Animator::update` (the spec's `advance()`), one
discrete step of the active motion mode.  Friction "multiplies the relevant
rate by `friction` after applying it"; an epsilon-bounded mode self-clears to
`None` once the relevant magnitude drops below `epsilon`, "checked after the
update", Target additionally "snapping value to target". -/
def Animator.update (a : Animator) : Animator :=
  match a.anim with
  | Anim.none => a
  | Anim.velocity v f e =>
    let value := a.value + v
    let v := v * f
    match e with
    | some eps => if |v| < eps then ⟨value, Anim.none⟩ else ⟨value, Anim.velocity v f e⟩
    | Option.none => ⟨value, Anim.velocity v f e⟩
  | Anim.scaleVelocity sv f e =>
    let value := a.value * (1 + sv)
    let sv := sv * f
    match e with
    | some eps =>
      if |sv| < eps then ⟨value, Anim.none⟩ else ⟨value, Anim.scaleVelocity sv f e⟩
    | Option.none => ⟨value, Anim.scaleVelocity sv f e⟩
  | Anim.target t co e =>
    let value := a.value + (t - a.value) * co
    match e with
    | some eps => if |t - value| < eps then ⟨t, Anim.none⟩ else ⟨value, Anim.target t co e⟩
    | Option.none => ⟨value, Anim.target t co e⟩

/-- The fields of `App` (from `app.rs`) that its `update` and `draw` read or
write for the crossfade behaviour.  The presentation-layer state the spec
excludes (text buffer, overlay/help text, feedback banner, frame counter) and
the per-View animators are not part of the modelled claims; each View is
represented by its computed output grid (`index_matrix()` in the source). -/
structure App where
  views : List (Matrix ℚ)
  index : ℕ
  interview_animator : Animator
  interview_matrix : Matrix ℚ
  interview_last_index : ℕ
  help_anim : Animator

/-- Modelled from the spec: leelib's `Matrix::interpolate(t, a, b, out)`,
which "linearly interpolates cell-by-cell between the previous View's frozen
Grid and the current View's freshly computed Grid using the crossfade value as
blend factor (0 = fully previous, 1 = fully current), writing into a scratch
Grid sized to match". -/
def Matrix.interpolate (t : ℚ) (a b : Matrix ℚ) (out : Matrix ℚ) : Matrix ℚ :=
  { out with
    data := (List.range out.data.length).map fun i =>
      let av := a.data.getD i 0
      let bv := b.data.getD i 0
      av + (bv - av) * t }

/-- The crossfade-relevant steps of `App::update` from `app.rs`: advance the
crossfade animator, and when its value has reached or passed `1.0`, force it
back to value `0` with mode `None`; advance the help animator.  (The first
line of the source, `self.views.get().update()`, advances the current View's
own animators, which are outside the modelled state.) -/
def App.update (app : App) : App :=
  let ia := app.interview_animator.update
  let ia := if 1 ≤ ia.value then ⟨0, Anim.none⟩ else ia
  { app with interview_animator := ia, help_anim := app.help_anim.update }

/-- The `should_crossfade` test of `App::draw` from `app.rs`: crossfade unless
the crossfade animator's mode is `None`. -/
def App.should_crossfade (app : App) : Bool :=
  match app.interview_animator.anim with
  | Anim.none => false
  | _ => true

/-- The empty fallback grid (the source's view lookup panics instead of
falling back; the claims only exercise in-range indices). -/
def Matrix.emptyQ : Matrix ℚ :=
  ⟨0, 0, []⟩

/-- The compositing step of `App::draw` from `app.rs`: the grid handed to
`write_textbuffer`.  When `should_crossfade` holds, it is the interpolation of
the previous View's grid (at `interview_last_index`) and the current View's
grid into the scratch `interview_matrix` with the crossfade animator's value
as blend factor; otherwise it is the current View's grid itself. -/
def App.draw_matrix (app : App) : Matrix ℚ :=
  if app.should_crossfade then
    Matrix.interpolate app.interview_animator.value
      (app.views.getD app.interview_last_index Matrix.emptyQ)
      (app.views.getD app.index Matrix.emptyQ)
      app.interview_matrix
  else
    app.views.getD app.index Matrix.emptyQ

/-- The reference escape-time loop exactly as the spec words it for the
Mandelbrot rule: "seed `c = point`, iterate `z = 0`, `z = z*z + c`; count
iterations until `|z| ≥ 2.0` or `max_iterations` reached; result is the
iteration count at escape (or `max_iterations` if never escapes)".  Stated
with an upward counter, to be compared with the source's loop. -/
def mandelbrot_reference_loop (c : Complex64) (z : Complex64) (count max_iterations : ℕ) :
    ℕ :=
  if h : 4 ≤ z.norm_sqr ∨ max_iterations ≤ count then count
  else mandelbrot_reference_loop c (z * z + c) (count + 1) max_iterations
termination_by max_iterations - count
decreasing_by
  have _hc : count < max_iterations := by
    rcases Nat.lt_or_ge count max_iterations with h1 | h1
    · exact h1
    · exact absurd (Or.inr h1) h
  omega

/-- The reference escape-time count of the spec's Mandelbrot rule, starting
from `z = 0` with seed `c = (x, y)` and count `0`. -/
def mandelbrot_reference (x y : ℚ) (max_iterations : ℕ) : ℕ :=
  mandelbrot_reference_loop ⟨x, y⟩ ⟨0, 0⟩ 0 max_iterations

/-- The Julia loop as claim C3 words it: identical to
`FractalCalc.juliaLoop` except that iteration stops as soon as `|z| ≥ 2.0`
(embedded as `4 ≤ norm_sqr z`), not only when `|z| > 2.0` strictly. -/
def juliaLoopGe (c : Complex64) : Complex64 → ℕ → ℕ
  | _, 0 => 0
  | z, fuel + 1 =>
    if 4 ≤ z.norm_sqr then 0 else juliaLoopGe c (z * z + c) fuel + 1

/-- The Julia value under the claimed (non-strict) escape rule. -/
def get_julia_value_ge (c : Complex64) (x y : ℚ) (max_val : ℕ) : ℕ :=
  juliaLoopGe c ⟨x, y⟩ max_val

/-- A concrete `App` whose crossfade animator is exactly at `1.0` with mode
`None`, as `App::new` builds it; exercises the forced-reset path of
`App::update`. -/
def appIdle : App :=
  ⟨[], 0, ⟨1, Anim.none⟩, Matrix.emptyQ, 0, ⟨1, Anim.none⟩⟩

/-- A concrete `App` in mid-crossfade: two one-cell views, the crossfade
animator ramping at constant rate with value `1/2`. -/
def appCross : App :=
  ⟨[⟨1, 1, [2]⟩, ⟨1, 1, [4]⟩], 1, ⟨1 / 2, Anim.velocity (1 / 20) 1 Option.none⟩,
    ⟨1, 1, [0]⟩, 0, ⟨1, Anim.none⟩⟩

/-- A concrete `FractalSpecs` with a small iteration cap, used to exercise
the matrix-writing loops on a small grid. -/
def specsW : FractalSpecs :=
  ⟨FractalType.mandelbrot, 2, 4, ⟨0, 0⟩, 1, 1, false⟩

/-- A concrete 2×2 output matrix. -/
def mW : Matrix ℕ :=
  ⟨2, 2, [0, 0, 0, 0]⟩

/-- A concrete 2×1 section matrix (one row of `mW`). -/
def sectW : Matrix ℕ :=
  ⟨2, 1, [0, 0]⟩

/-! ### Helper lemmas about the escape loops -/

theorem FractalCalc.mandelLoop_le (c : Complex64) (z : Complex64) (fuel : ℕ) :
    FractalCalc.mandelLoop c z fuel ≤ fuel := by
  induction fuel generalizing z with
  | zero => exact Nat.le_refl 0
  | succ f ih =>
    rw [FractalCalc.mandelLoop]
    split
    · exact Nat.succ_le_succ (ih _)
    · exact Nat.zero_le _

theorem FractalCalc.juliaLoop_le (c : Complex64) (z : Complex64) (fuel : ℕ) :
    FractalCalc.juliaLoop c z fuel ≤ fuel := by
  induction fuel generalizing z with
  | zero => exact Nat.le_refl 0
  | succ f ih =>
    rw [FractalCalc.juliaLoop]
    split
    · exact Nat.zero_le _
    · exact Nat.succ_le_succ (ih _)

theorem Complex64.zero_step : (⟨0, 0⟩ * ⟨0, 0⟩ + ⟨0, 0⟩ : Complex64) = ⟨0, 0⟩ := by
  show (⟨0 * 0 - 0 * 0 + 0, 0 * 0 + 0 * 0 + 0⟩ : Complex64) = ⟨0, 0⟩
  norm_num

theorem Complex64.norm_sqr_zero : Complex64.norm_sqr ⟨0, 0⟩ = 0 := by
  norm_num [Complex64.norm_sqr]

theorem FractalCalc.juliaLoop_origin (fuel : ℕ) :
    FractalCalc.juliaLoop ⟨0, 0⟩ ⟨0, 0⟩ fuel = fuel := by
  induction fuel with
  | zero => rfl
  | succ f ih =>
    rw [FractalCalc.juliaLoop, if_neg (by rw [Complex64.norm_sqr_zero]; norm_num),
      Complex64.zero_step, ih]

theorem FractalCalc.mandelLoop_origin (fuel : ℕ) :
    FractalCalc.mandelLoop ⟨0, 0⟩ ⟨0, 0⟩ fuel = fuel := by
  induction fuel with
  | zero => rfl
  | succ f ih =>
    rw [FractalCalc.mandelLoop, if_pos (by rw [Complex64.norm_sqr_zero]; norm_num),
      Complex64.zero_step, ih]

/-! ### Claims C2, C3, C4, C9 — the escape loops -/

/-- Claim C2 (amended): with seed `0+0i`, the point `(0,0)` never escapes (the
Julia value is `max_iterations` for every cap), and the point `(3,0)` escapes
before the first iteration, with returned count `0` (not `1`), for every cap. -/
theorem claim_C2 (max_iterations : ℕ) :
    FractalCalc.get_julia_value ⟨0, 0⟩ 0 0 max_iterations = max_iterations ∧
    FractalCalc.get_julia_value ⟨0, 0⟩ 3 0 max_iterations = 0 := by
  constructor
  · exact FractalCalc.juliaLoop_origin max_iterations
  · cases max_iterations with
    | zero => rfl
    | succ f =>
      rw [FractalCalc.get_julia_value, FractalCalc.juliaLoop,
        if_pos (by norm_num [Complex64.norm_sqr])]

/-- Claim C2, counterexample: at point `(3,0)` with seed `0+0i` and
`max_iterations = 1`, the source's Julia loop returns `0`, not `1` as the
claim states. -/
theorem claim_C2_counterexample : FractalCalc.get_julia_value ⟨0, 0⟩ 3 0 1 ≠ 1 := by
  rw [FractalCalc.get_julia_value, show (1 : ℕ) = 0 + 1 from rfl, FractalCalc.juliaLoop,
    if_pos (by norm_num [Complex64.norm_sqr])]
  exact Nat.zero_ne_one

/-- Claim C3 (amended): the Julia rule shares the iteration cap with the
Mandelbrot rule, but not the escape comparison: during one allowed iteration,
the Mandelbrot loop stops (returning the count so far) exactly when
`|z| ≥ 2.0`, while the Julia loop stops exactly when `|z| > 2.0` strictly —
at `|z| = 2.0` Mandelbrot stops but Julia continues; both return at most
`max_iterations`. -/
theorem claim_C3 (c z : Complex64) (x y : ℚ) (f max_iterations : ℕ) :
    (FractalCalc.mandelLoop c z (f + 1) = 0 ↔ 4 ≤ z.norm_sqr) ∧
    (FractalCalc.juliaLoop c z (f + 1) = 0 ↔ 4 < z.norm_sqr) ∧
    FractalCalc.get_mandelbrot_value x y max_iterations ≤ max_iterations ∧
    FractalCalc.get_julia_value c x y max_iterations ≤ max_iterations := by
  refine ⟨?_, ?_, FractalCalc.mandelLoop_le _ _ _, FractalCalc.juliaLoop_le _ _ _⟩
  · rw [FractalCalc.mandelLoop]
    by_cases h : z.norm_sqr < 4
    · simp only [if_pos h]
      constructor
      · intro hz; exact absurd hz (Nat.succ_ne_zero _)
      · intro hz; exact absurd h (not_lt.mpr hz)
    · simp only [if_neg h]
      exact ⟨fun _ => not_lt.mp h, fun _ => trivial⟩
  · rw [FractalCalc.juliaLoop]
    by_cases h : 4 < z.norm_sqr
    · simp only [if_pos h]
      exact ⟨fun _ => h, fun _ => trivial⟩
    · simp only [if_neg h]
      constructor
      · intro hz; exact absurd hz (Nat.succ_ne_zero _)
      · intro hz; exact absurd hz h

/-- Claim C3, counterexample: at the magnitude-2 point `(2,0)` with seed
`0+0i` and cap `1`, a loop escaping on `|z| ≥ 2.0` (as the claim states for
both rules) returns `0`, but the source's Julia loop continues and returns
`1`. -/
theorem claim_C3_counterexample :
    get_julia_value_ge ⟨0, 0⟩ 2 0 1 = 0 ∧ FractalCalc.get_julia_value ⟨0, 0⟩ 2 0 1 = 1 := by
  constructor
  · rw [get_julia_value_ge, show (1 : ℕ) = 0 + 1 from rfl, juliaLoopGe,
      if_pos (by norm_num [Complex64.norm_sqr])]
  · rw [FractalCalc.get_julia_value, show (1 : ℕ) = 0 + 1 from rfl, FractalCalc.juliaLoop,
      if_neg (by norm_num [Complex64.norm_sqr])]
    rfl

theorem mandelbrot_reference_loop_eq (c : Complex64) :
    ∀ (fuel count : ℕ) (z : Complex64),
      mandelbrot_reference_loop c z count (count + fuel) =
        count + FractalCalc.mandelLoop c z fuel := by
  intro fuel
  induction fuel with
  | zero =>
    intro count z
    rw [mandelbrot_reference_loop, dif_pos (Or.inr (by omega))]
    rfl
  | succ f ih =>
    intro count z
    by_cases h : 4 ≤ z.norm_sqr
    · rw [mandelbrot_reference_loop, dif_pos (Or.inl h), FractalCalc.mandelLoop,
        if_neg (not_lt.mpr h)]
      omega
    · rw [mandelbrot_reference_loop, dif_neg (by push_neg; exact ⟨not_le.mp h, by omega⟩),
        FractalCalc.mandelLoop, if_pos (not_le.mp h),
        show count + (f + 1) = (count + 1) + f by omega, ih (count + 1) (z * z + c)]
      omega

theorem FractalCalc.mandelLoop_two_two (fuel : ℕ) :
    FractalCalc.mandelLoop ⟨2, 2⟩ ⟨2, 2⟩ fuel = 0 := by
  cases fuel with
  | zero => rfl
  | succ f =>
    rw [FractalCalc.mandelLoop, if_neg (by norm_num [Complex64.norm_sqr])]

/-- Claim C4: for every point and cap, the source's Mandelbrot loop equals the
spec's reference escape-time count; at `(0,0)` it returns the cap for every
cap, and at `(2,2)` it returns at most `1`. -/
theorem claim_C4 (x y : ℚ) (max_iterations : ℕ) :
    FractalCalc.get_mandelbrot_value x y max_iterations =
      mandelbrot_reference x y max_iterations ∧
    FractalCalc.get_mandelbrot_value 0 0 max_iterations = max_iterations ∧
    FractalCalc.get_mandelbrot_value 2 2 max_iterations ≤ 1 := by
  refine ⟨?_, FractalCalc.mandelLoop_origin max_iterations, ?_⟩
  · have h := mandelbrot_reference_loop_eq ⟨x, y⟩ max_iterations 0 ⟨0, 0⟩
    rw [Nat.zero_add, Nat.zero_add] at h
    rw [FractalCalc.get_mandelbrot_value, mandelbrot_reference, h]
  · cases max_iterations with
    | zero => exact Nat.zero_le 1
    | succ f =>
      rw [FractalCalc.get_mandelbrot_value, FractalCalc.mandelLoop,
        if_pos (by rw [Complex64.norm_sqr_zero]; norm_num),
        show (⟨0, 0⟩ * ⟨0, 0⟩ + ⟨2, 2⟩ : Complex64) = ⟨2, 2⟩ by
          show (⟨0 * 0 - 0 * 0 + 2, 0 * 0 + 0 * 0 + 2⟩ : Complex64) = ⟨2, 2⟩
          norm_num,
        FractalCalc.mandelLoop_two_two]

/-- Claim C9: for every input coordinates, every Julia seed and every cap, the
two escape loops are fuel-bounded — they perform at most `max_val` iterations
(the fuel argument of the loop embedding) and the returned count lies in
`[0, max_val]`. -/
theorem claim_C9 (c : Complex64) (x y : ℚ) (max_val : ℕ) :
    FractalCalc.get_mandelbrot_value x y max_val ≤ max_val ∧
    FractalCalc.get_julia_value c x y max_val ≤ max_val := by
  exact ⟨FractalCalc.mandelLoop_le _ _ _, FractalCalc.juliaLoop_le _ _ _⟩

/-! ### Claims C1, C10 — specs and geometry -/

/-- Claim C1 (amended): for positive grid dimensions, the derived
mathematical-plane height is `w * (grid_height / grid_width) *
(1 / element_aspect_ratio)` — the reciprocal of the grid aspect ratio, not
the ratio `grid_width / grid_height` itself. -/
theorem claim_C1 (specs : FractalSpecs) (grid_w grid_h : ℕ) (w : ℚ)
    (hgw : 0 < grid_w) (hgh : 0 < grid_h) :
    FractalCalc.get_height specs grid_w grid_h w =
      w * ((grid_h : ℚ) / (grid_w : ℚ)) * (1 / specs.element_ar) := by
  show w * (1 / ((grid_w : ℚ) / (grid_h : ℚ))) * (1 / specs.element_ar) = _
  rw [one_div_div]

theorem claim_C1_witness :
    0 < 2 ∧ 0 < 1 ∧
    FractalCalc.get_height (FractalSpecs.new_mandelbrot_with_defaults 1) 2 1 1 =
      1 * (((1 : ℕ) : ℚ) / ((2 : ℕ) : ℚ)) *
        (1 / (FractalSpecs.new_mandelbrot_with_defaults 1).element_ar) :=
  ⟨by decide, by decide,
    claim_C1 (FractalSpecs.new_mandelbrot_with_defaults 1) 2 1 1 (by decide) (by decide)⟩

/-- Claim C1, counterexample: at grid width 2, grid height 1, viewport width 1
and element aspect ratio 1, the code returns `1/2`, not the claimed
`1 * (2/1) * (1/1) = 2`. -/
theorem claim_C1_counterexample :
    FractalCalc.get_height (FractalSpecs.new_mandelbrot_with_defaults 1) 2 1 1 ≠
      1 * (((2 : ℕ) : ℚ) / ((1 : ℕ) : ℚ)) *
        (1 / (FractalSpecs.new_mandelbrot_with_defaults 1).element_ar) := by
  rw [FractalCalc.get_height]
  norm_num [FractalSpecs.new_mandelbrot_with_defaults]

/-- Claim C10: the Mandelbrot and Julia constructors share every numeric
default — `max_val = 500`, `default_width = 4`, `default_center = (0,0)`,
`num_threads = 1`, `use_multi_threads = false` — and differ only in
`fractal_type`. -/
theorem claim_C10 (element_ar : ℚ) (c : Complex64) :
    (FractalSpecs.new_mandelbrot_with_defaults element_ar).max_val = 500 ∧
    (FractalSpecs.new_mandelbrot_with_defaults element_ar).default_width = 4 ∧
    (FractalSpecs.new_mandelbrot_with_defaults element_ar).default_center = ⟨0, 0⟩ ∧
    (FractalSpecs.new_mandelbrot_with_defaults element_ar).num_threads = 1 ∧
    (FractalSpecs.new_mandelbrot_with_defaults element_ar).use_multi_threads = false ∧
    (FractalSpecs.new_mandelbrot_with_defaults element_ar).element_ar = element_ar ∧
    (FractalSpecs.new_mandelbrot_with_defaults element_ar).fractal_type =
      FractalType.mandelbrot ∧
    FractalSpecs.new_julia c element_ar =
      { FractalSpecs.new_mandelbrot_with_defaults element_ar with
          fractal_type := FractalType.julia c } :=
  ⟨rfl, rfl, rfl, rfl, rfl, rfl, rfl, rfl⟩

/-! ### Row-major buffer lemmas -/

@[simp] theorem Matrix.set_width (m : Matrix α) (x y : ℕ) (v : α) :
    (m.set x y v).width = m.width := rfl

@[simp] theorem Matrix.set_height (m : Matrix α) (x y : ℕ) (v : α) :
    (m.set x y v).height = m.height := rfl

@[simp] theorem Matrix.set_length (m : Matrix α) (x y : ℕ) (v : α) :
    (m.set x y v).data.length = m.data.length := by
  simp [Matrix.set]

theorem rowmajor_lt {ix iy w h : ℕ} (hx : ix < w) (hy : iy < h) :
    iy * w + ix < w * h := by
  calc iy * w + ix < iy * w + w := by omega
    _ = (iy + 1) * w := by ring
    _ ≤ h * w := Nat.mul_le_mul_right w hy
    _ = w * h := Nat.mul_comm h w

theorem rowmajor_ne {w x x2 y y2 : ℕ} (hx : x < w) (hx2 : x2 < w)
    (hne : y ≠ y2 ∨ x ≠ x2) : y * w + x ≠ y2 * w + x2 := by
  intro he
  have hw : 0 < w := Nat.lt_of_le_of_lt (Nat.zero_le _) hx
  have key : ∀ a b : ℕ, b < w → (a * w + b) / w = a := by
    intro a b hb
    rw [Nat.mul_comm, Nat.mul_add_div hw, Nat.div_eq_of_lt hb, Nat.add_zero]
  have hyy : y = y2 := by
    rw [← key y x hx, he, key y2 x2 hx2]
  subst hyy
  rcases hne with h | h
  · exact h rfl
  · exact h (Nat.add_left_cancel he)

theorem Matrix.get_set_self (m : Matrix α) (x y : ℕ) (v : α)
    (hidx : y * m.width + x < m.data.length) :
    (m.set x y v).get x y = some v := by
  unfold Matrix.set Matrix.get
  exact List.getElem?_set_eq_of_lt v hidx

theorem Matrix.get_set_ne (m : Matrix α) (x y x2 y2 : ℕ) (v : α)
    (hne : y * m.width + x ≠ y2 * m.width + x2) :
    (m.set x y v).get x2 y2 = m.get x2 y2 := by
  unfold Matrix.set Matrix.get
  exact List.getElem?_set_ne hne

/-! ### Invariants and cell values of the write loops -/

theorem FractalCalc.write_row_width (specs : FractalSpecs) (sx : Vector2f) (iy : ℕ) :
    ∀ (n ix : ℕ) (cur : Vector2f) (m : Matrix ℕ),
      (FractalCalc.write_row specs sx iy ix n cur m).width = m.width := by
  intro n
  induction n with
  | zero => intro ix cur m; rfl
  | succ k ih =>
    intro ix cur m
    rw [FractalCalc.write_row, ih]
    rfl

theorem FractalCalc.write_row_height (specs : FractalSpecs) (sx : Vector2f) (iy : ℕ) :
    ∀ (n ix : ℕ) (cur : Vector2f) (m : Matrix ℕ),
      (FractalCalc.write_row specs sx iy ix n cur m).height = m.height := by
  intro n
  induction n with
  | zero => intro ix cur m; rfl
  | succ k ih =>
    intro ix cur m
    rw [FractalCalc.write_row, ih]
    rfl

theorem FractalCalc.write_row_length (specs : FractalSpecs) (sx : Vector2f) (iy : ℕ) :
    ∀ (n ix : ℕ) (cur : Vector2f) (m : Matrix ℕ),
      (FractalCalc.write_row specs sx iy ix n cur m).data.length = m.data.length := by
  intro n
  induction n with
  | zero => intro ix cur m; rfl
  | succ k ih =>
    intro ix cur m
    rw [FractalCalc.write_row, ih]
    exact Matrix.set_length m ix iy _

theorem FractalCalc.write_row_get_ne (specs : FractalSpecs) (sx : Vector2f) (iy : ℕ) :
    ∀ (n ix : ℕ) (cur : Vector2f) (m : Matrix ℕ) (x y : ℕ),
      x < m.width → ix + n ≤ m.width → (y ≠ iy ∨ x < ix ∨ ix + n ≤ x) →
      (FractalCalc.write_row specs sx iy ix n cur m).get x y = m.get x y := by
  intro n
  induction n with
  | zero => intro ix cur m x y _ _ _; rfl
  | succ k ih =>
    intro ix cur m x y hx hn hcase
    have hixw : ix < m.width := by omega
    rw [FractalCalc.write_row]
    have step := ih (ix + 1) (cur + sx)
      (m.set ix iy (FractalCalc.get_value specs cur.x cur.y)) x y
      (by simpa using hx) (by simpa using by omega)
      (by
        rcases hcase with h | h | h
        · exact Or.inl h
        · exact Or.inr (Or.inl (by omega))
        · exact Or.inr (Or.inr (by omega)))
    rw [step]
    apply Matrix.get_set_ne
    apply rowmajor_ne hixw hx
    rcases hcase with h | h | h
    · exact Or.inl (fun hc => h hc.symm)
    · exact Or.inr (by omega)
    · exact Or.inr (by omega)

theorem FractalCalc.write_row_get_in (specs : FractalSpecs) (sx : Vector2f) (iy : ℕ) :
    ∀ (n ix : ℕ) (cur : Vector2f) (m : Matrix ℕ) (x : ℕ),
      m.data.length = m.width * m.height → ix + n ≤ m.width → iy < m.height →
      ix ≤ x → x < ix + n →
      (FractalCalc.write_row specs sx iy ix n cur m).get x iy =
        some (FractalCalc.get_value specs (cur + sx * ((x - ix : ℕ) : ℚ)).x
          (cur + sx * ((x - ix : ℕ) : ℚ)).y) := by
  intro n
  induction n with
  | zero => intro ix cur m x _ _ _ h1 h2; omega
  | succ k ih =>
    intro ix cur m x hwf hn hy hx1 hx2
    rw [FractalCalc.write_row]
    by_cases hex : x = ix
    · subst hex
      rw [FractalCalc.write_row_get_ne specs sx iy k (x + 1) (cur + sx) _ x iy
        (by simpa using by omega) (by simpa using by omega)
        (Or.inr (Or.inl (Nat.lt_succ_self x)))]
      rw [Matrix.get_set_self m x iy _ (by rw [hwf]; exact rowmajor_lt (by omega) hy)]
      have hc : cur + sx * ((x - x : ℕ) : ℚ) = cur := by
        ext <;> simp
      rw [hc]
    · have hlt : ix < x := Nat.lt_of_le_of_ne hx1 (fun hc => hex hc.symm)
      rw [ih (ix + 1) (cur + sx) _ x ?_ ?_ ?_ ?_ ?_]
      · have hc : cur + sx + sx * ((x - (ix + 1) : ℕ) : ℚ)
            = cur + sx * ((x - ix : ℕ) : ℚ) := by
          have hcast : ((x - ix : ℕ) : ℚ) = ((x - (ix + 1) : ℕ) : ℚ) + 1 := by
            rw [show x - ix = (x - (ix + 1)) + 1 by omega]
            push_cast
            ring
          ext <;> simp [hcast] <;> ring
        rw [hc]
      · simpa using hwf
      · simpa using by omega
      · simpa using hy
      · omega
      · omega

theorem FractalCalc.write_rows_width (specs : FractalSpecs)
    (center sx sy : Vector2f) (hw hh : ℚ) (off : ℕ) :
    ∀ (n iy0 : ℕ) (m : Matrix ℕ),
      (FractalCalc.write_rows specs center sx sy hw hh off iy0 n m).width = m.width := by
  intro n
  induction n with
  | zero => intro iy0 m; rfl
  | succ k ih =>
    intro iy0 m
    rw [FractalCalc.write_rows, ih]
    exact FractalCalc.write_row_width specs sx iy0 m.width 0 _ m

theorem FractalCalc.write_rows_height (specs : FractalSpecs)
    (center sx sy : Vector2f) (hw hh : ℚ) (off : ℕ) :
    ∀ (n iy0 : ℕ) (m : Matrix ℕ),
      (FractalCalc.write_rows specs center sx sy hw hh off iy0 n m).height = m.height := by
  intro n
  induction n with
  | zero => intro iy0 m; rfl
  | succ k ih =>
    intro iy0 m
    rw [FractalCalc.write_rows, ih]
    exact FractalCalc.write_row_height specs sx iy0 m.width 0 _ m

theorem FractalCalc.write_rows_length (specs : FractalSpecs)
    (center sx sy : Vector2f) (hw hh : ℚ) (off : ℕ) :
    ∀ (n iy0 : ℕ) (m : Matrix ℕ),
      (FractalCalc.write_rows specs center sx sy hw hh off iy0 n m).data.length
        = m.data.length := by
  intro n
  induction n with
  | zero => intro iy0 m; rfl
  | succ k ih =>
    intro iy0 m
    rw [FractalCalc.write_rows, ih]
    exact FractalCalc.write_row_length specs sx iy0 m.width 0 _ m

theorem FractalCalc.write_rows_get_lt (specs : FractalSpecs)
    (center sx sy : Vector2f) (hw hh : ℚ) (off : ℕ) :
    ∀ (n iy0 : ℕ) (m : Matrix ℕ) (x y : ℕ),
      x < m.width → y < iy0 →
      (FractalCalc.write_rows specs center sx sy hw hh off iy0 n m).get x y
        = m.get x y := by
  intro n
  induction n with
  | zero => intro iy0 m x y _ _; rfl
  | succ k ih =>
    intro iy0 m x y hx hy
    rw [FractalCalc.write_rows]
    rw [ih (iy0 + 1) _ x y (by rw [FractalCalc.write_row_width]; exact hx) (by omega)]
    exact FractalCalc.write_row_get_ne specs sx iy0 m.width 0 _ m x y hx
      (by omega) (Or.inl (by omega))

theorem FractalCalc.write_rows_get (specs : FractalSpecs)
    (center sx sy : Vector2f) (hw hh : ℚ) (off : ℕ) :
    ∀ (n iy0 : ℕ) (m : Matrix ℕ) (x y : ℕ),
      m.data.length = m.width * m.height → x < m.width → y < m.height →
      iy0 ≤ y → y < iy0 + n →
      (FractalCalc.write_rows specs center sx sy hw hh off iy0 n m).get x y =
        some (FractalCalc.get_value specs
          (center + sx * (-hw) + sy * (((off + y : ℕ) : ℚ) - hh) + sx * ((x : ℕ) : ℚ)).x
          (center + sx * (-hw) + sy * (((off + y : ℕ) : ℚ) - hh) + sx * ((x : ℕ) : ℚ)).y) := by
  intro n
  induction n with
  | zero => intro iy0 m x y _ _ _ h1 h2; omega
  | succ k ih =>
    intro iy0 m x y hwf hx hy hy1 hy2
    rw [FractalCalc.write_rows]
    by_cases hey : y = iy0
    · subst hey
      rw [FractalCalc.write_rows_get_lt specs center sx sy hw hh off k (y + 1) _ x y
        (by rw [FractalCalc.write_row_width]; exact hx) (Nat.lt_succ_self y)]
      rw [FractalCalc.write_row_get_in specs sx y m.width 0
        (center + sx * (-hw) + sy * (((off + y : ℕ) : ℚ) - hh)) m x hwf
        (by omega) hy (Nat.zero_le x) (by omega)]
      have hc : center + sx * (-hw) + sy * (((off + y : ℕ) : ℚ) - hh)
            + sx * ((x - 0 : ℕ) : ℚ)
          = center + sx * (-hw) + sy * (((off + y : ℕ) : ℚ) - hh) + sx * ((x : ℕ) : ℚ) := by
        rw [Nat.sub_zero]
      rw [hc]
    · have hlt : iy0 < y := Nat.lt_of_le_of_ne hy1 (fun hc => hey hc.symm)
      rw [ih (iy0 + 1) _ x y ?_ ?_ ?_ (by omega) (by omega)]
      · rw [FractalCalc.write_row_length, FractalCalc.write_row_width,
          FractalCalc.write_row_height]
        exact hwf
      · rw [FractalCalc.write_row_width]; exact hx
      · rw [FractalCalc.write_row_height]; exact hy

/-! ### Claims C5, C6 — the sampling lattice and section splitting -/

theorem FractalCalc.write_matrix_section_get (specs : FractalSpecs) (center : Vector2f)
    (width : ℚ) (rot : Rotation) (sect : Matrix ℕ) (off fullH : ℕ) (ix iy : ℕ)
    (hwf : sect.wf) (hx : ix < sect.width) (hy : iy < sect.height) :
    (FractalCalc.write_matrix_section specs center width rot sect off fullH).get ix iy =
      some (FractalCalc.get_value specs
        (center
          + Vector2f.rotate ⟨width / (sect.width : ℚ), 0⟩ rot * (-((sect.width : ℚ) / 2))
          + Vector2f.rotate
              ⟨0, FractalCalc.get_height specs sect.width fullH width / (fullH : ℚ)⟩ rot
            * (((off + iy : ℕ) : ℚ) - (fullH : ℚ) / 2)
          + Vector2f.rotate ⟨width / (sect.width : ℚ), 0⟩ rot * ((ix : ℕ) : ℚ)).x
        (center
          + Vector2f.rotate ⟨width / (sect.width : ℚ), 0⟩ rot * (-((sect.width : ℚ) / 2))
          + Vector2f.rotate
              ⟨0, FractalCalc.get_height specs sect.width fullH width / (fullH : ℚ)⟩ rot
            * (((off + iy : ℕ) : ℚ) - (fullH : ℚ) / 2)
          + Vector2f.rotate ⟨width / (sect.width : ℚ), 0⟩ rot * ((ix : ℕ) : ℚ)).y) := by
  exact FractalCalc.write_rows_get specs center
    (Vector2f.rotate ⟨width / (sect.width : ℚ), 0⟩ rot)
    (Vector2f.rotate
      ⟨0, FractalCalc.get_height specs sect.width fullH width / (fullH : ℚ)⟩ rot)
    ((sect.width : ℚ) / 2) ((fullH : ℚ) / 2) off sect.height 0 sect ix iy hwf hx hy
    (Nat.zero_le iy) (by omega)

/-- Claim C5: for every specs, center, width, rotation and grid, the value the
evaluator writes at cell `(ix, iy)` is the fractal value sampled at the
lattice point `center - slope_x*(grid_w/2) - slope_y*(grid_h/2) + slope_x*ix
+ slope_y*iy`, where `slope_x` and `slope_y` are the per-cell deltas
`(width/grid_w, 0)` and `(0, height_span/grid_h)` rotated by the rotation
angle; within a row the cursor advances by successive addition of `slope_x`,
and each row's start is recomputed from `center` with the `slope_y` offset
multiplied by the row index (both of which the lattice-point form captures
exactly, the arithmetic being exact here). -/
theorem claim_C5 (specs : FractalSpecs) (center : Vector2f) (width : ℚ)
    (rot : Rotation) (m : Matrix ℕ) (ix iy : ℕ)
    (hwf : m.wf) (hx : ix < m.width) (hy : iy < m.height) :
    (FractalCalc.write_matrix specs center width rot m).get ix iy =
      some (FractalCalc.get_value specs
        (latticePoint center
          (Vector2f.rotate ⟨width / (m.width : ℚ), 0⟩ rot)
          (Vector2f.rotate
            ⟨0, FractalCalc.get_height specs m.width m.height width / (m.height : ℚ)⟩ rot)
          m.width m.height ix iy).x
        (latticePoint center
          (Vector2f.rotate ⟨width / (m.width : ℚ), 0⟩ rot)
          (Vector2f.rotate
            ⟨0, FractalCalc.get_height specs m.width m.height width / (m.height : ℚ)⟩ rot)
          m.width m.height ix iy).y) := by
  have hp : center
        + Vector2f.rotate ⟨width / (m.width : ℚ), 0⟩ rot * (-((m.width : ℚ) / 2))
        + Vector2f.rotate
            ⟨0, FractalCalc.get_height specs m.width m.height width / (m.height : ℚ)⟩ rot
          * (((0 + iy : ℕ) : ℚ) - (m.height : ℚ) / 2)
        + Vector2f.rotate ⟨width / (m.width : ℚ), 0⟩ rot * ((ix : ℕ) : ℚ)
      = latticePoint center
          (Vector2f.rotate ⟨width / (m.width : ℚ), 0⟩ rot)
          (Vector2f.rotate
            ⟨0, FractalCalc.get_height specs m.width m.height width / (m.height : ℚ)⟩ rot)
          m.width m.height ix iy := by
    unfold latticePoint
    ext <;> push_cast <;> simp <;> ring
  rw [FractalCalc.write_matrix,
    FractalCalc.write_matrix_section_get specs center width rot m 0 m.height ix iy hwf hx hy,
    hp]

theorem claim_C5_witness :
    mW.wf ∧ 1 < mW.width ∧ 0 < mW.height ∧
    (FractalCalc.write_matrix specsW ⟨0, 0⟩ 4 ⟨1, 0⟩ mW).get 1 0 =
      some (FractalCalc.get_value specsW
        (latticePoint ⟨0, 0⟩
          (Vector2f.rotate ⟨4 / (mW.width : ℚ), 0⟩ ⟨1, 0⟩)
          (Vector2f.rotate
            ⟨0, FractalCalc.get_height specsW mW.width mW.height 4 / (mW.height : ℚ)⟩ ⟨1, 0⟩)
          mW.width mW.height 1 0).x
        (latticePoint ⟨0, 0⟩
          (Vector2f.rotate ⟨4 / (mW.width : ℚ), 0⟩ ⟨1, 0⟩)
          (Vector2f.rotate
            ⟨0, FractalCalc.get_height specsW mW.width mW.height 4 / (mW.height : ℚ)⟩ ⟨1, 0⟩)
          mW.width mW.height 1 0).y) :=
  ⟨by decide, by decide, by decide,
    claim_C5 specsW ⟨0, 0⟩ 4 ⟨1, 0⟩ mW 1 0 (by decide) (by decide) (by decide)⟩

/-- Claim C6: writing any contiguous row section of the grid independently —
passing the section's starting row as `full_matrix_offset` and the full grid
height as `full_matrix_height` — yields, cell for cell, exactly the value a
single `write_matrix` call over the full grid puts at the corresponding cell. -/
theorem claim_C6 (specs : FractalSpecs) (center : Vector2f) (width : ℚ)
    (rot : Rotation) (off : ℕ) (sect full : Matrix ℕ) (ix iy : ℕ)
    (hw : sect.width = full.width) (hpart : off + sect.height ≤ full.height)
    (hswf : sect.wf) (hfwf : full.wf)
    (hx : ix < sect.width) (hy : iy < sect.height) :
    (FractalCalc.write_matrix_section specs center width rot sect off full.height).get ix iy
      = (FractalCalc.write_matrix specs center width rot full).get ix (off + iy) := by
  rw [FractalCalc.write_matrix_section_get specs center width rot sect off full.height
      ix iy hswf hx hy,
    FractalCalc.write_matrix,
    FractalCalc.write_matrix_section_get specs center width rot full 0 full.height
      ix (off + iy) hfwf (hw ▸ hx) (by omega)]
  rw [hw]
  simp

theorem claim_C6_witness :
    sectW.width = mW.width ∧ 1 + sectW.height ≤ mW.height ∧ sectW.wf ∧ mW.wf ∧
    0 < sectW.width ∧ 0 < sectW.height ∧
    (FractalCalc.write_matrix_section specsW ⟨0, 0⟩ 4 ⟨1, 0⟩ sectW 1 mW.height).get 0 0
      = (FractalCalc.write_matrix specsW ⟨0, 0⟩ 4 ⟨1, 0⟩ mW).get 0 (1 + 0) :=
  ⟨by decide, by decide, by decide, by decide, by decide, by decide,
    claim_C6 specsW ⟨0, 0⟩ 4 ⟨1, 0⟩ 1 sectW mW 0 0 (by decide) (by decide)
      (by decide) (by decide) (by decide) (by decide)⟩

/-! ### Claims C7, C8 — the crossfade -/

/-- Claim C7: after every `App::update`, the crossfade (interview) animator
never remains at a value `≥ 1.0`: its post-update value is always strictly
below `1.0`, and whenever the advanced value reaches or exceeds `1.0` it is
forced to mode `None` with value `0`. -/
theorem claim_C7 (app : App) :
    (App.update app).interview_animator.value < 1 ∧
    (1 ≤ app.interview_animator.update.value →
      (App.update app).interview_animator = ⟨0, Anim.none⟩) := by
  have hival : (App.update app).interview_animator
      = if 1 ≤ app.interview_animator.update.value then (⟨0, Anim.none⟩ : Animator)
        else app.interview_animator.update := rfl
  constructor
  · rw [hival]
    by_cases h : 1 ≤ app.interview_animator.update.value
    · rw [if_pos h]
      norm_num
    · rw [if_neg h]
      exact not_le.mp h
  · intro h
    rw [hival, if_pos h]

theorem claim_C7_witness :
    1 ≤ appIdle.interview_animator.update.value ∧
    (App.update appIdle).interview_animator.value < 1 ∧
    (App.update appIdle).interview_animator = ⟨0, Anim.none⟩ :=
  ⟨by decide, (claim_C7 appIdle).1, (claim_C7 appIdle).2 (by decide)⟩

theorem Matrix.interpolate_get (t : ℚ) (a b out : Matrix ℚ) (ix iy : ℕ)
    (hwf : out.wf) (hx : ix < out.width) (hy : iy < out.height) :
    (Matrix.interpolate t a b out).get ix iy =
      some (a.data.getD (iy * out.width + ix) 0 +
        (b.data.getD (iy * out.width + ix) 0 -
          a.data.getD (iy * out.width + ix) 0) * t) := by
  have hidx : iy * out.width + ix < out.data.length := by
    rw [hwf]
    exact rowmajor_lt hx hy
  unfold Matrix.interpolate Matrix.get
  rw [List.getElem?_map, List.getElem?_range hidx]
  rfl

/-- Claim C8: `App::draw` composites through the crossfade exactly when the
crossfade animator's mode is not `None`: when inactive, the current View's
grid is the one written out; when active, the written grid is the cell-by-cell
interpolation of the previous View's grid (at `interview_last_index`) and the
current View's grid into the scratch matrix, blended by the crossfade
animator's current value. -/
theorem claim_C8 (app : App) (hwf : app.interview_matrix.wf) :
    (app.interview_animator.anim = Anim.none →
      App.draw_matrix app = app.views.getD app.index Matrix.emptyQ) ∧
    (app.interview_animator.anim ≠ Anim.none →
      App.draw_matrix app =
        Matrix.interpolate app.interview_animator.value
          (app.views.getD app.interview_last_index Matrix.emptyQ)
          (app.views.getD app.index Matrix.emptyQ) app.interview_matrix ∧
      ∀ ix iy, ix < app.interview_matrix.width → iy < app.interview_matrix.height →
        (App.draw_matrix app).get ix iy =
          some ((app.views.getD app.interview_last_index Matrix.emptyQ).data.getD
              (iy * app.interview_matrix.width + ix) 0 +
            ((app.views.getD app.index Matrix.emptyQ).data.getD
                (iy * app.interview_matrix.width + ix) 0 -
              (app.views.getD app.interview_last_index Matrix.emptyQ).data.getD
                (iy * app.interview_matrix.width + ix) 0) *
              app.interview_animator.value)) := by
  constructor
  · intro h
    simp [App.draw_matrix, App.should_crossfade, h]
  · intro h
    have hsc : app.should_crossfade = true := by
      rw [App.should_crossfade]
      cases happ : app.interview_animator.anim with
      | none => exact absurd happ h
      | velocity v f e => rfl
      | scaleVelocity v f e => rfl
      | target t co e => rfl
    constructor
    · rw [App.draw_matrix, if_pos hsc]
    · intro ix iy hx hy
      rw [App.draw_matrix, if_pos hsc]
      exact Matrix.interpolate_get app.interview_animator.value
        (app.views.getD app.interview_last_index Matrix.emptyQ)
        (app.views.getD app.index Matrix.emptyQ) app.interview_matrix ix iy hwf hx hy

theorem claim_C8_witness :
    appCross.interview_matrix.wf ∧
    appCross.interview_animator.anim ≠ Anim.none ∧
    0 < appCross.interview_matrix.width ∧ 0 < appCross.interview_matrix.height ∧
    App.draw_matrix appCross =
      Matrix.interpolate appCross.interview_animator.value
        (appCross.views.getD appCross.interview_last_index Matrix.emptyQ)
        (appCross.views.getD appCross.index Matrix.emptyQ) appCross.interview_matrix ∧
    (App.draw_matrix appCross).get 0 0 =
      some ((appCross.views.getD appCross.interview_last_index Matrix.emptyQ).data.getD
          (0 * appCross.interview_matrix.width + 0) 0 +
        ((appCross.views.getD appCross.index Matrix.emptyQ).data.getD
            (0 * appCross.interview_matrix.width + 0) 0 -
          (appCross.views.getD appCross.interview_last_index Matrix.emptyQ).data.getD
            (0 * appCross.interview_matrix.width + 0) 0) *
          appCross.interview_animator.value) :=
  ⟨by decide, by decide, by decide, by decide,
    ((claim_C8 appCross (by decide)).2 (by decide)).1,
    ((claim_C8 appCross (by decide)).2 (by decide)).2 0 0 (by decide) (by decide)⟩

end FractalTerm
